import Mathlib

/-!
Shallow embedding of the mp3tag repository core (src/core/parser.rs,
src/core/tagger.rs, src/core/renamer.rs, src/core/scanner.rs,
src/sources/spotify.rs) and proofs of the frozen claims about it.

Strings are modelled as lists of characters (`Str`); Rust `Option` as
`Option`; fallible Rust functions returning `anyhow::Result` as `Except Str`.
-/

/-- Strings, modelled as lists of Unicode characters. -/
abbrev Str := List Char

/-- Conversion from a Lean string literal to the model string type. -/
def str (s : String) : Str := s.data

/-- Model of Rust `char::is_whitespace` (the Unicode White_Space property). -/
def rustIsWhitespace (c : Char) : Bool :=
  let n := c.toNat
  (0x9 ≤ n && n ≤ 0xD) || n = 0x20 || n = 0x85 || n = 0xA0 || n = 0x1680 ||
  (0x2000 ≤ n && n ≤ 0x200A) || n = 0x2028 || n = 0x2029 || n = 0x202F ||
  n = 0x205F || n = 0x3000

/-- Model of Rust `str::trim_start`. -/
def trimStart (s : Str) : Str := s.dropWhile rustIsWhitespace

/-- Model of Rust `str::trim_end`. -/
def trimEnd (s : Str) : Str := (s.reverse.dropWhile rustIsWhitespace).reverse

/-- Model of Rust `str::trim`. -/
def trim (s : Str) : Str := trimEnd (trimStart s)

/-- Model of Rust `char::is_ascii_digit` (`'0'..='9'`). -/
def isAsciiDigit (c : Char) : Bool := 0x30 ≤ c.toNat && c.toNat ≤ 0x39

/-- `src/models.rs` `TrackInfo`: one track's (partial) metadata.  Field
defaults model Rust `Default` (`None` everywhere, empty `source`). -/
structure TrackInfo where
  title : Option Str := none
  artist : Option Str := none
  album : Option Str := none
  album_artist : Option Str := none
  track_number : Option Nat := none
  year : Option Int := none
  genre : Option Str := none
  album_art : Option (List Nat) := none
  album_art_url : Option Str := none
  source : Str := []
deriving DecidableEq, Repr

/-- Model of Rust `str::splitn(2, sep)` restricted to the case the code
uses: splits at the first occurrence of `sep`, returning the part before
and the part after, or `none` when `sep` does not occur. -/
def splitOnce (sep : Str) : Str → Option (Str × Str)
  | [] => if sep = [] then some ([], []) else none
  | c :: rest =>
    if sep.isPrefixOf (c :: rest) then some ([], (c :: rest).drop sep.length)
    else match splitOnce sep rest with
      | some (a, b) => some (c :: a, b)
      | none => none

/-- `src/core/parser.rs` `try_artist_title`: split the stem once on
`" - "`; both halves, trimmed, must be non-empty. -/
def try_artist_title (stem : Str) : Option TrackInfo :=
  match splitOnce (str " - ") stem with
  | none => none
  | some (p0, p1) =>
    let artist := trim p0
    let title := trim p1
    if artist = [] || title = [] then none
    else some { title := some title, artist := some artist, source := str "filename" }

/-- `src/core/parser.rs` `strip_track_number`: drop a leading run of one
or more ASCII digits, an optional single `.`, and leading whitespace;
`none` when the stem is shorter than two characters, starts with no
digit, or nothing remains. -/
def strip_track_number (stem : Str) : Option Str :=
  if stem.length < 2 then none
  else
    let i := (stem.takeWhile isAsciiDigit).length
    if i = 0 then none
    else
      let rest := stem.drop i
      let rest := match rest with
        | '.' :: r => r
        | r => r
      let rest := trimStart rest
      if rest = [] then none else some rest

/-- `src/core/parser.rs` `try_numbered_artist_title`. -/
def try_numbered_artist_title (stem : Str) : Option TrackInfo :=
  match strip_track_number stem with
  | none => none
  | some rest => try_artist_title rest

/-- `src/core/parser.rs` `try_numbered_title`. -/
def try_numbered_title (stem : Str) : Option TrackInfo :=
  match strip_track_number stem with
  | none => none
  | some rest =>
    let title := trim rest
    if title = [] then none
    else some { title := some title, source := str "filename" }

/-- `src/core/parser.rs` `parse_filename`, taken at the filename stem
(the extraction of the stem from the path is outside the model). -/
def parse_filename (stem0 : Str) : TrackInfo :=
  let stem := trim stem0
  match try_numbered_artist_title stem with
  | some info => info
  | none =>
    match try_artist_title stem with
    | some info => info
    | none =>
      match try_numbered_title stem with
      | some info => info
      | none => { title := some stem, source := str "filename" }

/-! ## Tagger (`src/core/tagger.rs`) -/

/-- The fields of an ID3 tag container, as the `id3` crate exposes them to
`read_tags`: `none` models an absent frame, `pictures` the picture frames
in order, each a byte list.  `genre` models the result of
`genre_parsed`. -/
structure TagData where
  title : Option Str := none
  artist : Option Str := none
  album : Option Str := none
  album_artist : Option Str := none
  track : Option Nat := none
  year : Option Int := none
  genre : Option Str := none
  pictures : List (List Nat) := []
deriving DecidableEq, Repr

/-- The three outcomes of `id3::Tag::read_from_path` on a file: no tag
container at all (`ErrorKind::NoTag`), a malformed container (any other
error), or a successfully parsed container. -/
inductive TagFile where
  | noTag : TagFile
  | malformed : TagFile
  | tagged : TagData → TagFile
deriving DecidableEq, Repr

/-- `src/core/tagger.rs` `read_tags`: `NoTag` is a normal absent result,
other read errors propagate; a container whose title, artist and album
frames are all absent also yields an absent result; otherwise the tag is
converted to a `TrackInfo` with source `"id3"` and the first picture's
bytes as album art. -/
def read_tags (f : TagFile) : Except Str (Option TrackInfo) :=
  match f with
  | .noTag => .ok none
  | .malformed => .error (str "malformed tag")
  | .tagged t =>
    let has_any := t.title.isSome || t.artist.isSome || t.album.isSome
    if !has_any then .ok none
    else .ok (some
      { title := t.title
        artist := t.artist
        album := t.album
        album_artist := t.album_artist
        track_number := t.track
        year := t.year
        genre := t.genre
        album_art := t.pictures.head?
        album_art_url := none
        source := str "id3" })

/-- `src/core/tagger.rs` `merge_tags`: field by field the new value wins
when present (`Option::or_else`), the source always comes from
`new_info`; with no existing record the new record is returned as is. -/
def merge_tags (existing : Option TrackInfo) (new_info : TrackInfo) : TrackInfo :=
  match existing with
  | some e =>
    { title := new_info.title.or e.title
      artist := new_info.artist.or e.artist
      album := new_info.album.or e.album
      album_artist := new_info.album_artist.or e.album_artist
      track_number := new_info.track_number.or e.track_number
      year := new_info.year.or e.year
      genre := new_info.genre.or e.genre
      album_art := new_info.album_art.or e.album_art
      album_art_url := new_info.album_art_url.or e.album_art_url
      source := new_info.source }
  | none => new_info

/-! ## Renamer (`src/core/renamer.rs`) -/

/-- Model of Rust `char::is_ascii_control` (U+0000..U+001F and U+007F). -/
def isAsciiControl (c : Char) : Bool := c.toNat < 0x20 || c.toNat = 0x7F

/-- The per-character closure inside `src/core/renamer.rs`
`sanitize_filename`.  The two flags model the `cfg!(target_os)` conditions
compiled into it: `windows` for the stricter Windows character set,
`macos` for the classic-Mac colon rule. -/
def sanitize_char (windows macos : Bool) (c : Char) : Char :=
  if c = '/' || c = Char.ofNat 0 then '_'
  else if windows &&
      (c = '\\' || c = ':' || c = '*' || c = '?' || c = '"' ||
       c = '<' || c = '>' || c = '|' || isAsciiControl c) then '_'
  else if macos && c = ':' then '_'
  else c

/-- `src/core/renamer.rs` `sanitize_filename`. -/
def sanitize_filename (windows macos : Bool) (s : Str) : Str :=
  s.map (sanitize_char windows macos)

/-- Specification-side description of the characters `sanitize_filename`
replaces: `/` and the null character always, the Windows-restricted set
(backslash, colon, asterisk, question mark, quote, angle brackets, pipe,
ASCII control characters) when `windows`, and the colon when `macos`. -/
def restrictedChar (windows macos : Bool) (c : Char) : Bool :=
  c = '/' || c = Char.ofNat 0 ||
  (windows && (c = '\\' || c = ':' || c = '*' || c = '?' || c = '"' ||
               c = '<' || c = '>' || c = '|' || isAsciiControl c)) ||
  (macos && c = ':')

/-- `src/core/renamer.rs` `build_filename`: both artist and title must be
present and non-empty after trimming; the result is
`"{sanitized artist} - {sanitized title}.mp3"`. -/
def build_filename (windows macos : Bool) (info : TrackInfo) : Option Str :=
  match info.artist, info.title with
  | some artist0, some title0 =>
    let artist := trim artist0
    let title := trim title0
    if artist = [] || title = [] then none
    else some (sanitize_filename windows macos artist ++ str " - " ++
               sanitize_filename windows macos title ++ str ".mp3")
  | _, _ => none

/-- A path for the renamer model: the parent directory (an opaque
component list) and the file name within it.  Two paths are the same file
exactly when both components agree. -/
structure MPath where
  dir : List Str
  file : Str
deriving DecidableEq, Repr

/-- Model of `std::fs::rename old new` on a filesystem modelled as the
list of existing paths: `old` disappears, `new` appears. -/
def fs_rename (fs : List MPath) (old new : MPath) : List MPath :=
  fs.erase old ++ [new]

/-- `src/core/renamer.rs` `rename_file` over the filesystem model: the
first component is the returned result, the second the filesystem after
the call. -/
def rename_file (windows macos : Bool) (fs : List MPath) (old_path : MPath)
    (info : TrackInfo) : Except Str MPath × List MPath :=
  match build_filename windows macos info with
  | none => (.error (str "artist and title both required"), fs)
  | some new_name =>
    let new_path : MPath := ⟨old_path.dir, new_name⟩
    if old_path = new_path then (.ok new_path, fs)
    else if new_path ∈ fs then (.error (str "file already exists"), fs)
    else (.ok new_path, fs_rename fs old_path new_path)

/-! ## Scanner (`src/core/scanner.rs`) -/

/-- A directory tree: a leaf file (with its tag-container state) or a
directory listing its entries, each a name with a subtree, in
`read_dir` order. -/
inductive FsNode where
  | file : TagFile → FsNode
  | dir : List (Str × FsNode) → FsNode

/-- A path inside the scanned tree, as the list of components from the
scan root (models `PathBuf` built by repeated `join`). -/
abbrev FPath := List Str

/-- `src/models.rs` `Mp3File`. -/
structure Mp3File where
  path : FPath
  current_tags : Option TrackInfo
  has_tags : Bool
deriving DecidableEq, Repr

/-- Model of Rust `char::to_ascii_lowercase` (`'A'..='Z'` shifted down). -/
def toAsciiLower (c : Char) : Char :=
  if 0x41 ≤ c.toNat && c.toNat ≤ 0x5A then Char.ofNat (c.toNat + 32) else c

/-- Model of Rust `str::eq_ignore_ascii_case`. -/
def eqIgnoreAsciiCase (a b : Str) : Bool :=
  a.map toAsciiLower = b.map toAsciiLower

/-- Model of Rust `Path::extension` on a file name: the portion after the
final `.`, or `none` if there is no `.` other than possibly a leading
one. -/
def extension : Str → Option Str
  | [] => none
  | c :: rest =>
    if ('.' : Char) ∈ rest then
      some (rest.reverse.takeWhile (fun ch => ch ≠ '.')).reverse
    else
      if c = '.' then none else none

/-- `src/core/scanner.rs` `is_mp3` (taken at the file name). -/
def is_mp3 (name : Str) : Bool :=
  match extension name with
  | some e => eqIgnoreAsciiCase e (str "mp3")
  | none => false

/-- `src/core/scanner.rs` `load_mp3_file`: a successful read with a
present record gives `has_tags = true`; every other outcome (no tag,
empty tag, malformed tag) gives an untagged record. -/
def load_mp3_file (p : FPath) (c : TagFile) : Mp3File :=
  match read_tags c with
  | .ok (some tags) => ⟨p, some tags, true⟩
  | _ => ⟨p, none, false⟩

/-- `src/core/scanner.rs` `collect_mp3_files`, taken at a directory's
entry list: sub-directories are walked recursively in place, matching
files are loaded and appended in `read_dir` order. -/
def collect_mp3_files (pfx : FPath) : List (Str × FsNode) → List Mp3File
  | [] => []
  | (n, FsNode.dir sub) :: rest =>
    collect_mp3_files (pfx ++ [n]) sub ++ collect_mp3_files pfx rest
  | (n, FsNode.file c) :: rest =>
    (if is_mp3 n then [load_mp3_file (pfx ++ [n]) c] else []) ++
    collect_mp3_files pfx rest

/-- Lexicographic comparison of lists from a base comparison; a shorter
list precedes every list it is a proper prefix of.  This is how Rust
`Ord` compares slices, strings (bytewise, which for UTF-8 agrees with
codepoint order) and `Path` components. -/
def lexCmp (cmp : α → α → Ordering) : List α → List α → Ordering
  | [], [] => .eq
  | [], _ :: _ => .lt
  | _ :: _, [] => .gt
  | a :: as, b :: bs =>
    match cmp a b with
    | .lt => .lt
    | .gt => .gt
    | .eq => lexCmp cmp as bs

/-- Comparison of characters by codepoint. -/
def charCmp (a b : Char) : Ordering :=
  if a.toNat < b.toNat then .lt
  else if b.toNat < a.toNat then .gt
  else .eq

/-- Comparison of path components (`OsStr::cmp`). -/
def strCmp (a b : Str) : Ordering := lexCmp charCmp a b

/-- Comparison of paths (`PathBuf::cmp`), component-lexicographic. -/
def pathCmp (a b : FPath) : Ordering := lexCmp strCmp a b

/-- Path order on scan results: `files.sort_by(|a, b| a.path.cmp(&b.path))`. -/
def fileLe (a b : Mp3File) : Prop := pathCmp a.path b.path ≠ .gt

instance : DecidableRel fileLe := fun a b =>
  inferInstanceAs (Decidable (pathCmp a.path b.path ≠ .gt))

/-- `src/core/scanner.rs` `scan_directory`: fails when the root is not a
directory, otherwise collects the matching files and sorts them by
path. -/
def scan_directory (pfx : FPath) (root : FsNode) : Except Str (List Mp3File) :=
  match root with
  | .file _ => .error (str "not a directory")
  | .dir es => .ok ((collect_mp3_files pfx es).insertionSort fileLe)

/-- `src/core/scanner.rs` `load_single_file`, over a model lookup result:
`content = none` models a path that does not exist. -/
def load_single_file (name : Str) (content : Option TagFile) : Except Str Mp3File :=
  match content with
  | none => .error (str "file not found")
  | some c =>
    if is_mp3 name then .ok (load_mp3_file [name] c)
    else .error (str "not an mp3 file")

/-- Specification-side enumeration of every file in a directory's entry
list, with its full path, its own name and its tag-container state. -/
def allFiles (pfx : FPath) : List (Str × FsNode) → List (FPath × Str × TagFile)
  | [] => []
  | (n, FsNode.dir sub) :: rest =>
    allFiles (pfx ++ [n]) sub ++ allFiles pfx rest
  | (n, FsNode.file c) :: rest =>
    (pfx ++ [n], n, c) :: allFiles pfx rest

/-! ## Spotify source (`src/sources/spotify.rs`) -/

/-- `src/sources/spotify.rs` `SpotifyImage`. -/
structure SpotifyImage where
  url : Str
  width : Option Nat
deriving DecidableEq, Repr

/-- `src/sources/spotify.rs` `SpotifyArtist`. -/
structure SpotifyArtist where
  name : Str
deriving DecidableEq, Repr

/-- `src/sources/spotify.rs` `SpotifyAlbum`. -/
structure SpotifyAlbum where
  name : Str
  release_date : Option Str
  images : List SpotifyImage
deriving DecidableEq, Repr

/-- `src/sources/spotify.rs` `SpotifyTrack`. -/
structure SpotifyTrack where
  name : Str
  artists : List SpotifyArtist
  album : SpotifyAlbum
  track_number : Nat
deriving DecidableEq, Repr

/-- Value of a digit run, or `none` when empty or not all digits. -/
def digitsVal (s : Str) : Option Nat :=
  if s = [] || !s.all isAsciiDigit then none
  else some (s.foldl (fun acc c => acc * 10 + (c.toNat - '0'.toNat)) 0)

/-- Model of Rust `str::parse::<i32>`: optional sign, one or more ASCII
digits, value within the `i32` range. -/
def parse_i32 (s : Str) : Option Int :=
  match s with
  | '+' :: rest => (digitsVal rest).bind fun v =>
      if v ≤ 2 ^ 31 - 1 then some (Int.ofNat v) else none
  | '-' :: rest => (digitsVal rest).bind fun v =>
      if v ≤ 2 ^ 31 then some (-(Int.ofNat v)) else none
  | _ => (digitsVal s).bind fun v =>
      if v ≤ 2 ^ 31 - 1 then some (Int.ofNat v) else none

/-- `src/sources/spotify.rs` `parse_year`: the leading `-`-delimited
component of the release date (`split('-').next()`), parsed as `i32`. -/
def parse_year (release_date : Option Str) : Option Int :=
  release_date.bind fun d => parse_i32 (d.takeWhile (fun c => c ≠ '-'))

/-- Model of Rust `Iterator::max_by_key`: the last element with the
maximal key, or `none` on an empty iterator. -/
def max_by_key (key : α → Nat) (l : List α) : Option α :=
  l.foldl (fun acc x =>
    match acc with
    | none => some x
    | some m => if key m ≤ key x then some x else some m) none

/-- `src/sources/spotify.rs` `convert_track`. -/
def convert_track (track : SpotifyTrack) : TrackInfo :=
  let artist := List.intercalate (str ", ") (track.artists.map fun a => a.name)
  let album_art_url :=
    (max_by_key (fun img => img.width.getD 0) track.album.images).map
      (fun img => img.url)
  { title := some track.name
    artist := some artist
    album := some track.album.name
    album_artist := track.artists.head?.map (fun a => a.name)
    track_number := some track.track_number
    year := parse_year track.album.release_date
    genre := none
    album_art := none
    album_art_url := album_art_url
    source := str "spotify" }

/-- A sample directory tree for exercising `scan_directory`: two matching
files at the root (one untagged, one tagged), a matching tagged file in a
sub-directory, and one non-matching file. -/
def scanDemoEntries : List (Str × FsNode) :=
  [(str "b.mp3", .file .noTag),
   (str "sub", .dir [(str "c.MP3", .file (.tagged { title := some (str "T") }))]),
   (str "a.mp3", .file (.tagged { artist := some (str "X") })),
   (str "n.txt", .file .noTag)]

/-- The expected scan result for `scanDemoEntries`, sorted by path. -/
def scanDemoResult : List Mp3File :=
  [⟨[str "a.mp3"], some { artist := some (str "X"), source := str "id3" }, true⟩,
   ⟨[str "b.mp3"], none, false⟩,
   ⟨[str "sub", str "c.MP3"], some { title := some (str "T"), source := str "id3" }, true⟩]

/-! ## Helper lemmas -/

lemma opt_or_eq_ite (a b : Option α) : a.or b = if a.isSome then a else b := by
  cases a <;> rfl

lemma sanitize_filename_length (w m : Bool) (s : Str) :
    (sanitize_filename w m s).length = s.length := by
  simp [sanitize_filename]

lemma sanitize_char_self_or_underscore (w m : Bool) (c : Char) :
    sanitize_char w m c = c ∨ sanitize_char w m c = '_' := by
  unfold sanitize_char
  split_ifs <;> simp

lemma sanitize_char_eq_self (w m : Bool) (c : Char)
    (h : restrictedChar w m c = false) : sanitize_char w m c = c := by
  unfold restrictedChar at h
  simp only [Bool.or_eq_false_iff] at h
  obtain ⟨⟨⟨h1, h2⟩, h3⟩, h4⟩ := h
  unfold sanitize_char
  simp [h1, h2, h3, h4]

/-! ## Claim theorems -/

/-- **C2**: `merge_tags` is right-biased field by field — the incoming value
is taken when present, otherwise the existing record's value is kept; the
source (provenance) always comes from the incoming record; and with no
existing record the incoming record is returned unchanged. -/
theorem merge_tags_right_biased :
    (∀ e i : TrackInfo,
      (merge_tags (some e) i).title = (if i.title.isSome then i.title else e.title) ∧
      (merge_tags (some e) i).artist = (if i.artist.isSome then i.artist else e.artist) ∧
      (merge_tags (some e) i).album = (if i.album.isSome then i.album else e.album) ∧
      (merge_tags (some e) i).album_artist =
        (if i.album_artist.isSome then i.album_artist else e.album_artist) ∧
      (merge_tags (some e) i).track_number =
        (if i.track_number.isSome then i.track_number else e.track_number) ∧
      (merge_tags (some e) i).year = (if i.year.isSome then i.year else e.year) ∧
      (merge_tags (some e) i).genre = (if i.genre.isSome then i.genre else e.genre) ∧
      (merge_tags (some e) i).album_art =
        (if i.album_art.isSome then i.album_art else e.album_art) ∧
      (merge_tags (some e) i).album_art_url =
        (if i.album_art_url.isSome then i.album_art_url else e.album_art_url) ∧
      (merge_tags (some e) i).source = i.source) ∧
    (∀ i : TrackInfo, merge_tags none i = i) := by
  refine ⟨fun e i => ?_, fun i => rfl⟩
  refine ⟨?_, ?_, ?_, ?_, ?_, ?_, ?_, ?_, ?_, rfl⟩ <;>
    simp [merge_tags, opt_or_eq_ite]

/-- **C10**: `sanitize_filename` keeps the character count, maps every
position to either the original character or `_`, and leaves every
non-restricted character unchanged in place. -/
theorem sanitize_filename_pointwise (w m : Bool) (s : Str) :
    (sanitize_filename w m s).length = s.length ∧
    ∀ i (h : i < s.length),
      ((sanitize_filename w m s).get ⟨i, by rw [sanitize_filename_length]; exact h⟩ =
          s.get ⟨i, h⟩ ∨
        (sanitize_filename w m s).get ⟨i, by rw [sanitize_filename_length]; exact h⟩ = '_') ∧
      (restrictedChar w m (s.get ⟨i, h⟩) = false →
        (sanitize_filename w m s).get ⟨i, by rw [sanitize_filename_length]; exact h⟩ =
          s.get ⟨i, h⟩) := by
  refine ⟨sanitize_filename_length w m s, fun i h => ⟨?_, ?_⟩⟩
  · simp only [sanitize_filename, List.get_eq_getElem, List.getElem_map]
    exact sanitize_char_self_or_underscore w m _
  · intro hres
    simp only [sanitize_filename, List.get_eq_getElem, List.getElem_map]
    exact sanitize_char_eq_self w m _ hres

/-- Witness for **C10** at `w = false`, `m = false`, `s = "a/b"`, `i = 2`. -/
theorem sanitize_filename_pointwise_witness :
    (2 < (str "a/b").length) ∧
    (sanitize_filename false false (str "a/b")).get ⟨2, by decide⟩ = 'b' :=
  ⟨by decide,
   ((sanitize_filename_pointwise false false (str "a/b")).2 2 (by decide)).2
      (by decide) |>.trans (by decide)⟩

/-- **C5**: `build_filename` is absent exactly when artist or title is
missing or empty after trimming; otherwise it is
`"{sanitized artist} - {sanitized title}.mp3"` over the trimmed fields. -/
theorem build_filename_iff (w m : Bool) (info : TrackInfo) :
    (build_filename w m info = none ↔
      info.artist = none ∨ info.title = none ∨
      (∃ a, info.artist = some a ∧ trim a = []) ∨
      (∃ t, info.title = some t ∧ trim t = [])) ∧
    (∀ a t, info.artist = some a → info.title = some t →
      trim a ≠ [] → trim t ≠ [] →
      build_filename w m info =
        some (sanitize_filename w m (trim a) ++ str " - " ++
              sanitize_filename w m (trim t) ++ str ".mp3")) := by
  constructor
  · cases ha : info.artist with
    | none => simp [build_filename, ha]
    | some a =>
      cases ht : info.title with
      | none => simp [build_filename, ha, ht]
      | some t =>
        by_cases hta : trim a = [] <;> by_cases htt : trim t = [] <;>
          simp [build_filename, ha, ht, hta, htt]
  · intro a t ha ht hta htt
    simp [build_filename, ha, ht, hta, htt]

/-- Witness for **C5**: artist `"AC/DC"` with a title containing a null byte
yields `"AC_DC - Back_Slash.mp3"`. -/
theorem build_filename_iff_witness :
    build_filename false false
      { artist := some (str "AC/DC"), title := some (str "Back\x00Slash") } =
      some (str "AC_DC - Back_Slash.mp3") := by
  have h := (build_filename_iff false false
      { artist := some (str "AC/DC"), title := some (str "Back\x00Slash") }).2
      (str "AC/DC") (str "Back\x00Slash") rfl rfl (by decide) (by decide)
  exact h.trans (by decide)

/-- **C3**: `read_tags` yields an absent record exactly when the file has no
tag container at all or when title, artist and album are all simultaneously
absent; every other successfully read container yields a record with source
`"id3"` carrying at most the first embedded picture's bytes. -/
theorem read_tags_absent_iff (f : TagFile) :
    (read_tags f = .ok none ↔
      f = .noTag ∨
      ∃ t, f = .tagged t ∧ t.title = none ∧ t.artist = none ∧ t.album = none) ∧
    (∀ t, f = .tagged t →
      ¬(t.title = none ∧ t.artist = none ∧ t.album = none) →
      read_tags f = .ok (some
        { title := t.title, artist := t.artist, album := t.album,
          album_artist := t.album_artist, track_number := t.track,
          year := t.year, genre := t.genre, album_art := t.pictures.head?,
          album_art_url := none, source := str "id3" })) := by
  constructor
  · cases f with
    | noTag => simp [read_tags]
    | malformed => simp [read_tags]
    | tagged t =>
      cases ht : t.title <;> cases ha : t.artist <;> cases hb : t.album <;>
        simp [read_tags, ht, ha, hb]
  · rintro t rfl hne
    cases ht : t.title <;> cases ha : t.artist <;> cases hb : t.album <;>
      simp_all [read_tags]

/-- Witness for **C3** at a container with only an artist frame. -/
theorem read_tags_absent_iff_witness :
    read_tags (.tagged { artist := some (str "X") }) =
      .ok (some { artist := some (str "X"), source := str "id3" }) := by
  have h := (read_tags_absent_iff (.tagged { artist := some (str "X") })).2
    { artist := some (str "X") } rfl (by simp)
  exact h.trans (by rfl)

/-- **C4** as stated is false: a single-file load of an existing `.mp3`
whose tag container is malformed does not raise the error — the file is
loaded with `has_tags = false` like in a directory scan. -/
theorem load_single_file_malformed_ok :
    load_single_file (str "a.mp3") (some .malformed) =
      .ok { path := [str "a.mp3"], current_tags := none, has_tags := false } := by
  rfl

/-- **C4** (amended): the tag read reports malformed data as an error, but
both `load_mp3_file` (used by the directory scan) and `load_single_file`
swallow it and treat the file as having no tags. -/
theorem malformed_treated_as_untagged (name : Str) (p : FPath)
    (h : is_mp3 name = true) :
    (∃ e, read_tags .malformed = .error e) ∧
    load_mp3_file p .malformed = { path := p, current_tags := none, has_tags := false } ∧
    load_single_file name (some .malformed) =
      .ok { path := [name], current_tags := none, has_tags := false } := by
  refine ⟨⟨str "malformed tag", rfl⟩, rfl, ?_⟩
  simp [load_single_file, h]
  rfl

/-- Witness for the amended **C4** at file name `"a.mp3"`. -/
theorem malformed_treated_as_untagged_witness :
    is_mp3 (str "a.mp3") = true ∧
    load_single_file (str "a.mp3") (some .malformed) =
      .ok { path := [str "a.mp3"], current_tags := none, has_tags := false } :=
  ⟨by decide, (malformed_treated_as_untagged (str "a.mp3") [] (by decide)).2.2⟩

/-! ## Parser lemmas -/

lemma digit_not_ws (c : Char) (h : isAsciiDigit c = true) :
    rustIsWhitespace c = false := by
  simp only [isAsciiDigit, Bool.and_eq_true, decide_eq_true_eq] at h
  simp only [rustIsWhitespace]
  simp only [Bool.or_eq_false_iff, Bool.and_eq_false_iff, decide_eq_false_iff_not]
  omega

lemma dropWhile_eq_self_of_head {α : Type} {p : α → Bool} {s : List α}
    (h : ∀ c ∈ s, p c = false) : s.dropWhile p = s := by
  cases s with
  | nil => rfl
  | cons c r => simp [List.dropWhile_cons, h c (by simp)]

lemma trim_eq_self_of_all {s : Str} (h : ∀ c ∈ s, rustIsWhitespace c = false) :
    trim s = s := by
  unfold trim trimStart trimEnd
  rw [dropWhile_eq_self_of_head h,
      dropWhile_eq_self_of_head (fun c hc => h c (List.mem_reverse.mp hc)),
      List.reverse_reverse]

lemma takeWhile_eq_self_of_all {α : Type} {p : α → Bool} {s : List α}
    (h : ∀ c ∈ s, p c = true) : s.takeWhile p = s := by
  induction s with
  | nil => rfl
  | cons c r ih =>
    rw [List.takeWhile_cons, if_pos (h c (by simp))]
    rw [ih (fun x hx => h x (by simp [hx]))]

lemma splitOnce_eq_append (sep : Str) (hsep : sep ≠ []) :
    ∀ (s a b : Str), splitOnce sep s = some (a, b) → s = a ++ sep ++ b
  | [], a, b => by simp [splitOnce, hsep]
  | c :: rest, a, b => by
    intro h
    unfold splitOnce at h
    by_cases hp : sep.isPrefixOf (c :: rest)
    · rw [if_pos hp] at h
      simp only [Option.some.injEq, Prod.mk.injEq] at h
      obtain ⟨ha, hb⟩ := h
      obtain ⟨t, ht⟩ := List.isPrefixOf_iff_prefix.mp hp
      subst ha
      rw [← ht] at hb ⊢
      rw [List.drop_left] at hb
      subst hb
      simp
    · rw [if_neg hp] at h
      cases hrec : splitOnce sep rest with
      | none => rw [hrec] at h; exact absurd h (by simp)
      | some ab =>
        obtain ⟨a1, b1⟩ := ab
        rw [hrec] at h
        simp only [Option.some.injEq, Prod.mk.injEq] at h
        obtain ⟨ha, hb⟩ := h
        have hr := splitOnce_eq_append sep hsep rest a1 b1 hrec
        subst ha hb
        simp [hr]

/-- **C8**: a stem consisting solely of decimal digits falls through every
specialized rule and the fallback makes the full numeric string the title,
with no artist. -/
theorem parse_filename_pure_digits (s : Str) (hne : s ≠ [])
    (hdig : ∀ c ∈ s, isAsciiDigit c = true) :
    parse_filename s = { title := some s, source := str "filename" } := by
  have hws : ∀ c ∈ s, rustIsWhitespace c = false :=
    fun c hc => digit_not_ws c (hdig c hc)
  have htrim : trim s = s := trim_eq_self_of_all hws
  have hstrip : strip_track_number s = none := by
    unfold strip_track_number
    by_cases hlen : s.length < 2
    · simp [hlen]
    · rw [if_neg hlen, takeWhile_eq_self_of_all hdig,
          if_neg (by simpa using hne)]
      simp [List.drop_length, trimStart]
  have hsplit : splitOnce (str " - ") s = none := by
    cases hs : splitOnce (str " - ") s with
    | none => rfl
    | some ab =>
      exfalso
      obtain ⟨a, b⟩ := ab
      have heq := splitOnce_eq_append (str " - ") (by decide) s a b hs
      have hmem : (' ' : Char) ∈ s := by
        rw [heq]
        have h0 : (' ' : Char) ∈ str " - " := by decide
        simp only [List.mem_append]
        exact Or.inl (Or.inr h0)
      exact absurd (hdig ' ' hmem) (by decide)
  simp [parse_filename, htrim, try_numbered_artist_title, hstrip,
        try_artist_title, hsplit, try_numbered_title]

/-- Witness for **C8** at the stem `"2001"`. -/
theorem parse_filename_pure_digits_witness :
    parse_filename (str "2001") =
      { title := some (str "2001"), source := str "filename" } :=
  parse_filename_pure_digits (str "2001") (by decide) (by decide)

/-- **C1** as stated is false: for the stem `"1 2 - 3"`, which splits at the
first `" - "` into `A = "1 2"` and `B = "3"` with both trims non-empty, the
numbered rule strips the leading digit first and the parse yields artist
`"2"`, not `A`. -/
theorem parse_artist_title_counterexample :
    splitOnce (str " - ") (trim (str "1 2 - 3")) = some (str "1 2", str "3") ∧
    trim (str "1 2") ≠ [] ∧ trim (str "3") ≠ [] ∧
    parse_filename (str "1 2 - 3") =
      { title := some (str "3"), artist := some (str "2"),
        source := str "filename" } ∧
    (parse_filename (str "1 2 - 3")).artist ≠ some (str "1 2") := by
  refine ⟨by decide, by decide, by decide, by decide, by decide⟩

/-- **C1** (amended): when the trimmed stem splits at the first `" - "` into
`A` and `B`, both non-empty after trim, and `A` does not begin with an ASCII
digit (so the numbered rule cannot fire), `parse_filename` yields artist
`trim A`, title `trim B`, provenance `"filename"`. -/
theorem parse_filename_artist_title (stem A B : Str)
    (hsplit : splitOnce (str " - ") (trim stem) = some (A, B))
    (hA : trim A ≠ []) (hB : trim B ≠ [])
    (hd : ∀ c, A.head? = some c → isAsciiDigit c = false) :
    parse_filename stem =
      { title := some (trim B), artist := some (trim A),
        source := str "filename" } := by
  obtain ⟨c, A1, rfl⟩ : ∃ c A1, A = c :: A1 := by
    cases A with
    | nil => exact absurd rfl hA
    | cons c A1 => exact ⟨c, A1, rfl⟩
  have hstem : trim stem = c :: (A1 ++ str " - " ++ B) := by
    have h := splitOnce_eq_append (str " - ") (by decide) (trim stem)
      (c :: A1) B hsplit
    simpa using h
  have hcd : isAsciiDigit c = false := hd c rfl
  have hstrip : strip_track_number (trim stem) = none := by
    unfold strip_track_number
    rw [hstem]
    by_cases hlen : (c :: (A1 ++ str " - " ++ B)).length < 2
    · rw [if_pos hlen]
    · rw [if_neg hlen]
      simp [List.takeWhile_cons, hcd]
  have hnum : try_numbered_artist_title (trim stem) = none := by
    simp [try_numbered_artist_title, hstrip]
  have hat : try_artist_title (trim stem) =
      some { title := some (trim B), artist := some (trim (c :: A1)),
             source := str "filename" } := by
    simp [try_artist_title, hsplit, hA, hB]
  simp [parse_filename, hnum, hat]

/-- Witness for the amended **C1** at the stem `"IU - Blueming"`. -/
theorem parse_filename_artist_title_witness :
    parse_filename (str "IU - Blueming") =
      { title := some (trim (str "Blueming")), artist := some (trim (str "IU")),
        source := str "filename" } :=
  parse_filename_artist_title (str "IU - Blueming") (str "IU") (str "Blueming")
    (by decide) (by decide) (by decide)
    (fun c hc => by
      rw [show (str "IU").head? = some 'I' from rfl] at hc
      injection hc with h
      rw [← h]
      rfl)

/-! ## Spotify lemmas -/

lemma foldl_max_go {α : Type} (key : α → Nat) :
    ∀ (l : List α) (m : α),
      ∃ r, l.foldl (fun acc x =>
          match acc with
          | none => some x
          | some m => if key m ≤ key x then some x else some m) (some m) = some r ∧
        (r = m ∨ r ∈ l) ∧ key m ≤ key r ∧ ∀ x ∈ l, key x ≤ key r
  | [], m => ⟨m, rfl, Or.inl rfl, le_refl _, by simp⟩
  | x :: xs, m => by
    by_cases h : key m ≤ key x
    · obtain ⟨r, h1, h2, h3, h4⟩ := foldl_max_go key xs x
      refine ⟨r, ?_, ?_, le_trans h h3, ?_⟩
      · rw [List.foldl_cons]
        simpa [h] using h1
      · rcases h2 with h2 | h2
        · exact Or.inr (by simp [h2])
        · exact Or.inr (by simp [h2])
      · intro y hy
        rcases List.mem_cons.mp hy with rfl | hy
        · exact h3
        · exact h4 y hy
    · obtain ⟨r, h1, h2, h3, h4⟩ := foldl_max_go key xs m
      refine ⟨r, ?_, ?_, h3, ?_⟩
      · rw [List.foldl_cons]
        simpa [h] using h1
      · rcases h2 with rfl | h2
        · exact Or.inl rfl
        · exact Or.inr (by simp [h2])
      · intro y hy
        rcases List.mem_cons.mp hy with rfl | hy
        · exact le_trans (le_of_not_le h) h3
        · exact h4 y hy

lemma max_by_key_max {α : Type} (key : α → Nat) (l : List α) (h : l ≠ []) :
    ∃ r, r ∈ l ∧ max_by_key key l = some r ∧ ∀ x ∈ l, key x ≤ key r := by
  cases l with
  | nil => exact absurd rfl h
  | cons x xs =>
    obtain ⟨r, h1, h2, h3, h4⟩ := foldl_max_go key xs x
    refine ⟨r, ?_, ?_, ?_⟩
    · rcases h2 with rfl | h2
      · simp
      · simp [h2]
    · unfold max_by_key
      rw [List.foldl_cons]
      exact h1
    · intro y hy
      rcases List.mem_cons.mp hy with rfl | hy
      · exact h3
      · exact h4 y hy

/-- **C9**: a converted search result joins all listed artist names with
`", "` as the artist, takes the first listed artist as album-artist (absent
when none), parses the leading `-`-delimited component of the release date
as the year (absent when there is no date or it does not parse), and picks
the URL of the offered image with the greatest width as the art reference. -/
theorem convert_track_fields (t : SpotifyTrack) :
    (convert_track t).artist =
      some (List.intercalate (str ", ") (t.artists.map fun a => a.name)) ∧
    (convert_track t).album_artist =
      (match t.artists with
       | [] => none
       | a :: _ => some a.name) ∧
    (∀ d, t.album.release_date = some d →
      (convert_track t).year = parse_i32 (d.takeWhile fun c => c ≠ '-')) ∧
    (t.album.release_date = none → (convert_track t).year = none) ∧
    (t.album.images = [] → (convert_track t).album_art_url = none) ∧
    (t.album.images ≠ [] →
      ∃ img, img ∈ t.album.images ∧
        (convert_track t).album_art_url = some img.url ∧
        ∀ i ∈ t.album.images, i.width.getD 0 ≤ img.width.getD 0) := by
  refine ⟨rfl, ?_, ?_, ?_, ?_, ?_⟩
  · cases h : t.artists <;> simp [convert_track, h]
  · intro d hd
    simp [convert_track, parse_year, hd]
  · intro hd
    simp [convert_track, parse_year, hd]
  · intro h
    simp [convert_track, max_by_key, h]
  · intro h
    obtain ⟨r, hmem, hmax, hkey⟩ :=
      max_by_key_max (fun img => img.width.getD 0) t.album.images h
    exact ⟨r, hmem, by simp [convert_track, hmax], hkey⟩

/-- Witness for **C9** at a track with a release date and two image sizes. -/
theorem convert_track_fields_witness :
    (convert_track
        { name := str "Blueming", artists := [⟨str "IU"⟩],
          album := { name := str "Love poem",
                     release_date := some (str "2019-11-18"),
                     images := [⟨str "small", some 64⟩, ⟨str "big", some 640⟩] },
          track_number := 3 }).year = some 2019 ∧
    (convert_track
        { name := str "Blueming", artists := [⟨str "IU"⟩],
          album := { name := str "Love poem",
                     release_date := some (str "2019-11-18"),
                     images := [⟨str "small", some 64⟩, ⟨str "big", some 640⟩] },
          track_number := 3 }).album_art_url = some (str "big") := by
  have h := convert_track_fields
    { name := str "Blueming", artists := [⟨str "IU"⟩],
      album := { name := str "Love poem",
                 release_date := some (str "2019-11-18"),
                 images := [⟨str "small", some 64⟩, ⟨str "big", some 640⟩] },
      track_number := 3 }
  obtain ⟨img, hmem, hurl, hmax⟩ := h.2.2.2.2.2 (by decide)
  refine ⟨(h.2.2.1 (str "2019-11-18") rfl).trans (by decide), ?_⟩
  have himg : img.url = str "big" := by
    simp only [List.mem_cons, List.not_mem_nil, or_false] at hmem
    rcases hmem with h1 | h1
    · exfalso
      have := hmax ⟨str "big", some 640⟩ (by simp)
      rw [h1] at this
      simp at this
    · rw [h1]
  rw [hurl, himg]

/-- **C6**: with a buildable target name, `rename_file` returns the current
path untouched when the target equals it, fails without mutating the
filesystem when a different file occupies the target, and otherwise renames
the file (the old path disappears, the new one appears) and returns the new
path. -/
theorem rename_file_cases (w m : Bool) (fs : List MPath) (old_path : MPath)
    (info : TrackInfo) (new_name : Str)
    (hbuild : build_filename w m info = some new_name) :
    (old_path = ⟨old_path.dir, new_name⟩ →
      rename_file w m fs old_path info = (.ok old_path, fs)) ∧
    (old_path ≠ ⟨old_path.dir, new_name⟩ →
      (⟨old_path.dir, new_name⟩ : MPath) ∈ fs →
      rename_file w m fs old_path info =
        (.error (str "file already exists"), fs)) ∧
    (old_path ≠ ⟨old_path.dir, new_name⟩ →
      (⟨old_path.dir, new_name⟩ : MPath) ∉ fs →
      rename_file w m fs old_path info =
        (.ok ⟨old_path.dir, new_name⟩,
         fs.erase old_path ++ [⟨old_path.dir, new_name⟩]) ∧
      (fs.Nodup →
        old_path ∉ fs.erase old_path ++ [⟨old_path.dir, new_name⟩])) := by
  refine ⟨?_, ?_, ?_⟩
  · intro h
    simp only [rename_file, hbuild]
    rw [if_pos h, ← h]
  · intro hne hmem
    simp only [rename_file, hbuild]
    rw [if_neg hne, if_pos hmem]
  · intro hne hnmem
    refine ⟨?_, ?_⟩
    · simp only [rename_file, hbuild]
      rw [if_neg hne, if_neg hnmem]
      rfl
    · intro hnd
      simp only [List.mem_append, List.mem_singleton]
      rintro (hin | heq)
      · exact hnd.not_mem_erase hin
      · exact hne heq

/-- Witness for **C6**: renaming `x.mp3` to `IU - Blueming.mp3` in a
directory that holds only `x.mp3`. -/
theorem rename_file_cases_witness :
    rename_file false false [⟨[], str "x.mp3"⟩] ⟨[], str "x.mp3"⟩
      { artist := some (str "IU"), title := some (str "Blueming") } =
    (.ok ⟨[], str "IU - Blueming.mp3"⟩, [⟨[], str "IU - Blueming.mp3"⟩]) := by
  have h := (rename_file_cases false false [⟨[], str "x.mp3"⟩] ⟨[], str "x.mp3"⟩
    { artist := some (str "IU"), title := some (str "Blueming") }
    (str "IU - Blueming.mp3") (by rfl)).2.2 (by decide) (by decide)
  exact h.1.trans (by rfl)

/-! ## Path-order lemmas -/

lemma char_toNat_inj {a b : Char} (h : a.toNat = b.toNat) : a = b := by
  have ha := Char.ofNat_toNat a
  have hb := Char.ofNat_toNat b
  rw [← ha, ← hb, h]

lemma charCmp_swap (a b : Char) : charCmp b a = (charCmp a b).swap := by
  unfold charCmp
  split_ifs <;> first | rfl | omega

lemma charCmp_eq_iff (a b : Char) : charCmp a b = .eq ↔ a = b := by
  constructor
  · intro h
    unfold charCmp at h
    split_ifs at h with h1 h2
    exact char_toNat_inj (by omega)
  · rintro rfl
    unfold charCmp
    rw [if_neg (by omega), if_neg (by omega)]

lemma charCmp_lt_trans (a b c : Char) (h1 : charCmp a b = .lt)
    (h2 : charCmp b c = .lt) : charCmp a c = .lt := by
  unfold charCmp at h1 h2 ⊢
  split_ifs at h1 h2 ⊢ <;> first | rfl | omega

lemma lexCmp_swap {α : Type} (cmp : α → α → Ordering)
    (hsw : ∀ a b, cmp b a = (cmp a b).swap) :
    ∀ as bs, lexCmp cmp bs as = (lexCmp cmp as bs).swap
  | [], [] => rfl
  | [], _ :: _ => rfl
  | _ :: _, [] => rfl
  | a :: as, b :: bs => by
    have hrec := lexCmp_swap cmp hsw as bs
    unfold lexCmp
    rw [hsw a b]
    cases cmp a b
    · rfl
    · exact hrec
    · rfl

lemma lexCmp_eq_iff {α : Type} (cmp : α → α → Ordering)
    (heq : ∀ a b, cmp a b = .eq ↔ a = b) :
    ∀ as bs, lexCmp cmp as bs = .eq ↔ as = bs
  | [], [] => by simp [lexCmp]
  | [], _ :: _ => by simp [lexCmp]
  | _ :: _, [] => by simp [lexCmp]
  | a :: as, b :: bs => by
    unfold lexCmp
    cases h : cmp a b
    · constructor
      · intro hcon; exact Ordering.noConfusion hcon
      · intro hcon
        injection hcon with hab _
        exact absurd (((heq a b).mpr hab).symm.trans h) (by decide)
    · have hab := (heq a b).mp h
      subst hab
      simp [lexCmp_eq_iff cmp heq as bs]
    · constructor
      · intro hcon; exact Ordering.noConfusion hcon
      · intro hcon
        injection hcon with hab _
        exact absurd (((heq a b).mpr hab).symm.trans h) (by decide)

lemma lexCmp_lt_trans {α : Type} (cmp : α → α → Ordering)
    (heq : ∀ a b, cmp a b = .eq ↔ a = b)
    (htr : ∀ a b c, cmp a b = .lt → cmp b c = .lt → cmp a c = .lt) :
    ∀ as bs cs, lexCmp cmp as bs = .lt → lexCmp cmp bs cs = .lt →
      lexCmp cmp as cs = .lt
  | [], bs, cs => by
    intro h1 h2
    cases bs with
    | nil => exact Ordering.noConfusion h1
    | cons b bs =>
      cases cs with
      | nil => exact Ordering.noConfusion h2
      | cons c cs => rfl
  | a :: as, bs, cs => by
    intro h1 h2
    cases bs with
    | nil => exact Ordering.noConfusion h1
    | cons b bs =>
      cases cs with
      | nil => exact Ordering.noConfusion h2
      | cons c cs =>
        unfold lexCmp at h1 h2 ⊢
        cases hab : cmp a b with
        | lt =>
          cases hbc : cmp b c with
          | lt => rw [htr a b c hab hbc]
          | eq =>
            have hb := (heq b c).mp hbc
            rw [← hb, hab]
          | gt =>
            rw [hbc] at h2
            exact Ordering.noConfusion h2
        | eq =>
          have hb := (heq a b).mp hab
          rw [hab] at h1
          have h1a : lexCmp cmp as bs = .lt := h1
          rw [hb]
          cases hbc : cmp b c with
          | lt => rfl
          | eq =>
            rw [hbc] at h2
            have h2a : lexCmp cmp bs cs = .lt := h2
            exact lexCmp_lt_trans cmp heq htr as bs cs h1a h2a
          | gt =>
            rw [hbc] at h2
            exact Ordering.noConfusion h2
        | gt =>
          rw [hab] at h1
          exact Ordering.noConfusion h1

lemma strCmp_swap (a b : Str) : strCmp b a = (strCmp a b).swap :=
  lexCmp_swap charCmp charCmp_swap a b

lemma strCmp_eq_iff (a b : Str) : strCmp a b = .eq ↔ a = b :=
  lexCmp_eq_iff charCmp charCmp_eq_iff a b

lemma strCmp_lt_trans (a b c : Str) :
    strCmp a b = .lt → strCmp b c = .lt → strCmp a c = .lt :=
  lexCmp_lt_trans charCmp charCmp_eq_iff charCmp_lt_trans a b c

lemma pathCmp_swap (a b : FPath) : pathCmp b a = (pathCmp a b).swap :=
  lexCmp_swap strCmp strCmp_swap a b

lemma pathCmp_eq_iff (a b : FPath) : pathCmp a b = .eq ↔ a = b :=
  lexCmp_eq_iff strCmp strCmp_eq_iff a b

lemma pathCmp_lt_trans (a b c : FPath) :
    pathCmp a b = .lt → pathCmp b c = .lt → pathCmp a c = .lt :=
  lexCmp_lt_trans strCmp strCmp_eq_iff strCmp_lt_trans a b c

instance : IsTotal Mp3File fileLe :=
  ⟨fun a b => by
    by_cases h : pathCmp a.path b.path = .gt
    · refine Or.inr ?_
      unfold fileLe
      rw [pathCmp_swap, h]
      decide
    · exact Or.inl h⟩

instance : IsTrans Mp3File fileLe :=
  ⟨fun a b c hab hbc => by
    unfold fileLe at hab hbc ⊢
    cases h1 : pathCmp a.path b.path with
    | lt =>
      cases h2 : pathCmp b.path c.path with
      | lt =>
        rw [pathCmp_lt_trans _ _ _ h1 h2]
        decide
      | eq =>
        have hb := (pathCmp_eq_iff b.path c.path).mp h2
        rw [← hb, h1]
        decide
      | gt => exact absurd h2 hbc
    | eq =>
      have hb := (pathCmp_eq_iff a.path b.path).mp h1
      rw [hb]
      exact hbc
    | gt => exact absurd h1 hab⟩

/-! ## Scanner lemmas -/

theorem mem_collect : ∀ (pfx : FPath) (es : List (Str × FsNode)) (mf : Mp3File),
    mf ∈ collect_mp3_files pfx es ↔
      ∃ p n c, (p, n, c) ∈ allFiles pfx es ∧ is_mp3 n = true ∧
        mf = load_mp3_file p c
  | pfx, [], mf => by simp [collect_mp3_files, allFiles]
  | pfx, (n0, FsNode.dir sub) :: rest, mf => by
    have ih1 := mem_collect (pfx ++ [n0]) sub mf
    have ih2 := mem_collect pfx rest mf
    simp only [collect_mp3_files, allFiles, List.mem_append, ih1, ih2]
    constructor
    · rintro (⟨p, n, c, g1, g2, g3⟩ | ⟨p, n, c, g1, g2, g3⟩)
      · exact ⟨p, n, c, Or.inl g1, g2, g3⟩
      · exact ⟨p, n, c, Or.inr g1, g2, g3⟩
    · rintro ⟨p, n, c, g1 | g1, g2, g3⟩
      · exact Or.inl ⟨p, n, c, g1, g2, g3⟩
      · exact Or.inr ⟨p, n, c, g1, g2, g3⟩
  | pfx, (n0, FsNode.file c0) :: rest, mf => by
    have ih := mem_collect pfx rest mf
    by_cases h : is_mp3 n0
    · simp only [collect_mp3_files, allFiles, h, if_true, List.mem_append,
        List.mem_singleton, List.mem_cons, List.not_mem_nil, or_false, ih]
      constructor
      · rintro (g1 | ⟨p, n, c, g1, g2, g3⟩)
        · exact ⟨pfx ++ [n0], n0, c0, Or.inl rfl, h, g1⟩
        · exact ⟨p, n, c, Or.inr g1, g2, g3⟩
      · rintro ⟨p, n, c, g1 | g1, g2, g3⟩
        · obtain ⟨hp, hn, hc⟩ : p = pfx ++ [n0] ∧ n = n0 ∧ c = c0 := by
            simpa [Prod.ext_iff] using g1
          subst hp
          subst hc
          exact Or.inl g3
        · exact Or.inr ⟨p, n, c, g1, g2, g3⟩
    · have hf : is_mp3 n0 = false := by simpa using h
      simp only [collect_mp3_files, allFiles, hf, Bool.false_eq_true, if_false,
        List.nil_append, List.mem_cons, ih]
      constructor
      · rintro ⟨p, n, c, g1, g2, g3⟩
        exact ⟨p, n, c, Or.inr g1, g2, g3⟩
      · rintro ⟨p, n, c, g1 | g1, g2, g3⟩
        · obtain ⟨hp, hn, hc⟩ : p = pfx ++ [n0] ∧ n = n0 ∧ c = c0 := by
            simpa [Prod.ext_iff] using g1
          subst hn
          exact absurd g2 h
        · exact ⟨p, n, c, g1, g2, g3⟩

/-- **C7**: a directory scan fails when the root is not a directory;
`has_tags` is true exactly when the tag read succeeded with a present
record; and on a directory root the scan returns a list sorted by path
whose members are exactly the loads of the tree's files with a matching
extension. -/
theorem scan_directory_spec (pfx : FPath) (root : FsNode) :
    ((∃ c, root = .file c) → ∃ e, scan_directory pfx root = .error e) ∧
    (∀ p c, (load_mp3_file p c).has_tags = true ↔
      ∃ t, read_tags c = .ok (some t)) ∧
    (∀ es, root = .dir es →
      ∃ l, scan_directory pfx root = .ok l ∧ List.Sorted fileLe l ∧
        ∀ mf, mf ∈ l ↔ ∃ p n c, (p, n, c) ∈ allFiles pfx es ∧
          is_mp3 n = true ∧ mf = load_mp3_file p c) := by
  refine ⟨?_, ?_, ?_⟩
  · rintro ⟨c, rfl⟩
    exact ⟨str "not a directory", rfl⟩
  · intro p c
    unfold load_mp3_file
    cases hr : read_tags c with
    | ok o =>
      cases o with
      | none => simp [hr]
      | some t => simp [hr]
    | error e => simp [hr]
  · rintro es rfl
    refine ⟨_, rfl, List.sorted_insertionSort fileLe _, fun mf => ?_⟩
    rw [List.mem_insertionSort]
    exact mem_collect pfx es mf

/-- Witness for **C7** on the sample tree: the scan succeeds and returns
the three matching files sorted by path with the right classification. -/
theorem scan_directory_spec_witness :
    scan_directory [] (.dir scanDemoEntries) = .ok scanDemoResult ∧
    List.Sorted fileLe scanDemoResult := by
  obtain ⟨l, hok, hsort, -⟩ :=
    (scan_directory_spec [] (.dir scanDemoEntries)).2.2 scanDemoEntries rfl
  have hcol : collect_mp3_files [] scanDemoEntries =
      [⟨[str "b.mp3"], none, false⟩,
       ⟨[str "sub", str "c.MP3"],
        some { title := some (str "T"), source := str "id3" }, true⟩,
       ⟨[str "a.mp3"], some { artist := some (str "X"), source := str "id3" },
        true⟩] := by
    simp [scanDemoEntries, collect_mp3_files, load_mp3_file, read_tags,
      is_mp3, extension, eqIgnoreAsciiCase, toAsciiLower, str]
  have heval : scan_directory [] (.dir scanDemoEntries) = .ok scanDemoResult := by
    show Except.ok ((collect_mp3_files [] scanDemoEntries).insertionSort fileLe) =
      .ok scanDemoResult
    rw [hcol]
    exact congrArg Except.ok (by decide)
  have hl : l = scanDemoResult := by
    rw [heval] at hok
    exact (Except.ok.inj hok).symm
  exact ⟨heval, hl ▸ hsort⟩
